import Mathlib

/-!
Verification development for the competitor-sheet synchronization scripts
(src/scripts/update_competitor_sheets.py and src/scripts/freeze_master_values.py).

The Python code is shallowly embedded: pure helpers become Lean functions,
while-loops become fuel-indexed structural recursions (the fuel supplied by the
wrapper is a proven upper bound on the number of iterations), and every remote
Sheets/Drive call becomes an event in an explicit trace, drawn from an
environment that says whether the call succeeds and what a read returns.
-/

set_option maxHeartbeats 1000000

namespace CompetitorSync

/-! ## Column codec (a1_to_col / col_to_a1, identical in both scripts) -/

/-- Loop body of a1_to_col: walk the uppercased characters, stop at the first
character outside A-Z, and accumulate a base-26 value with A = 1. -/
def a1_to_col_go : List Char → Int → Int
  | [], result => result
  | ch :: rest, result =>
    let c := ch.toUpper
    if 'A' ≤ c ∧ c ≤ 'Z' then a1_to_col_go rest (result * 26 + ((c.toNat : Int) - 64))
    else result

/-- a1_to_col from the source: base-26 parse of a column label (best effort,
stops at the first non-letter). -/
def a1_to_col (a1 : String) : Int := a1_to_col_go a1.data 0

/-- Loop body of col_to_a1: the source's while loop, with an explicit iteration
budget (the loop runs at most index times because (index - 1) / 26 < index).
Each iteration prepends the next letter, matching append-then-reverse. -/
def col_to_a1_go : Nat → Nat → List Char → List Char
  | 0, _, letters => letters
  | fuel + 1, index, letters =>
    if index = 0 then letters
    else col_to_a1_go fuel ((index - 1) / 26) (Char.ofNat (65 + (index - 1) % 26) :: letters)

/-- col_to_a1 from the source: 1-based index to column letters; the while
condition index > 0 means a non-positive index yields the empty string. -/
def col_to_a1 (index : Int) : String := String.mk (col_to_a1_go index.toNat index.toNat [])

/-- Value denoted by the letters that col_to_a1_go emits for index, read on top
of an accumulator; used to state the round-trip invariant. -/
def col_digit_val : Nat → Nat → Int → Int
  | 0, _, acc => acc
  | fuel + 1, index, acc =>
    if index = 0 then acc
    else col_digit_val fuel ((index - 1) / 26) acc * 26 + (((index - 1) % 26 + 1 : Nat) : Int)

/-! ## Source selector (parse_timestamp_from_name / select_latest_file) -/

/-- A naive Python datetime value. -/
structure PyDatetime where
  year : Nat
  month : Nat
  day : Nat
  hour : Nat
  minute : Nat
  second : Nat
deriving DecidableEq, Repr

/-- Chronological order on datetimes is field-lexicographic; this code preserves
it for field values within datetime's validated ranges. -/
def PyDatetime.code (t : PyDatetime) : Nat :=
  ((((t.year * 13 + t.month) * 32 + t.day) * 24 + t.hour) * 60 + t.minute) * 60 + t.second

/-- datetime.min. -/
def datetimeMin : PyDatetime := ⟨1, 1, 1, 0, 0, 0⟩

def isLeapYear (y : Nat) : Prop := (y % 4 = 0 ∧ y % 100 ≠ 0) ∨ y % 400 = 0

instance (y : Nat) : Decidable (isLeapYear y) := by unfold isLeapYear; infer_instance

def daysInMonth (y m : Nat) : Nat :=
  if m = 1 ∨ m = 3 ∨ m = 5 ∨ m = 7 ∨ m = 8 ∨ m = 10 ∨ m = 12 then 31
  else if m = 4 ∨ m = 6 ∨ m = 9 ∨ m = 11 then 30
  else if isLeapYear y then 29 else 28

/-- The datetime constructor: validates field ranges and raises ValueError
(modelled as none) outside them. -/
def mkPyDatetime (y mo d h mi s : Nat) : Option PyDatetime :=
  if 1 ≤ y ∧ y ≤ 9999 ∧ 1 ≤ mo ∧ mo ≤ 12 ∧ 1 ≤ d ∧ d ≤ daysInMonth y mo ∧
     h ≤ 23 ∧ mi ≤ 59 ∧ s ≤ 59
  then some ⟨y, mo, d, h, mi, s⟩ else none

/-- Take exactly n ASCII digits from the front, returning them and the rest. -/
def takeDigits : Nat → List Char → Option (List Char × List Char)
  | 0, rest => some ([], rest)
  | _ + 1, [] => none
  | n + 1, c :: rest =>
    if '0' ≤ c ∧ c ≤ '9' then (takeDigits n rest).map (fun p => (c :: p.1, p.2))
    else none

/-- Leftmost regex search for six digits optionally followed by an underscore
and six more digits, as in parse_timestamp_from_name. -/
def search_ts : List Char → Option (List Char × Option (List Char))
  | [] => none
  | c :: rest =>
    match takeDigits 6 (c :: rest) with
    | some (ds, r) =>
      some (ds, match r with
        | '_' :: r2 => (takeDigits 6 r2).map (fun p => p.1)
        | _ => none)
    | none => search_ts rest

def digitVal (c : Char) : Nat := c.toNat - 48

def twoDigits (a b : Char) : Nat := digitVal a * 10 + digitVal b

/-- parse_timestamp_from_name from the source: requires the name to start with
the target precursor, searches the suffix for YYMMDD or YYMMDD_HHMMSS, maps the
two-digit year into the 2000s, and validates through the datetime constructor. -/
def parse_timestamp_from_name (name pfx : String) : Option PyDatetime :=
  if pfx.data.isPrefixOf name.data then
    match search_ts (name.data.drop pfx.data.length) with
    | none => none
    | some (ds, hs) =>
      match ds, hs.getD ['0', '0', '0', '0', '0', '0'] with
      | [y1, y2, mo1, mo2, d1, d2], [h1, h2, mi1, mi2, s1, s2] =>
        mkPyDatetime (2000 + twoDigits y1 y2) (twoDigits mo1 mo2) (twoDigits d1 d2)
          (twoDigits h1 h2) (twoDigits mi1 mi2) (twoDigits s1 s2)
      | _, _ => none
  else none

/-- A candidate dataset from the Drive listing. The modifiedTime and createdTime
RFC3339 strings are abstracted to their parsed instants (parse_rfc3339 is a
library call on external input); none models an absent or empty field. -/
structure FileInfo where
  id : String
  name : String
  modifiedTime : Option PyDatetime
  createdTime : Option PyDatetime
deriving DecidableEq, Repr

/-- sort_key from select_latest_file: absent components become datetime.min. -/
def sort_key (pfx : String) (f : FileInfo) : Nat × Nat × Nat :=
  (((parse_timestamp_from_name f.name pfx).getD datetimeMin).code,
   (f.modifiedTime.getD datetimeMin).code,
   (f.createdTime.getD datetimeMin).code)

/-- Python tuple comparison, non-strict: lexicographic. -/
def keyLe (x y : Nat × Nat × Nat) : Prop :=
  x.1 < y.1 ∨ (x.1 = y.1 ∧ (x.2.1 < y.2.1 ∨ (x.2.1 = y.2.1 ∧ x.2.2 ≤ y.2.2)))

instance (x y : Nat × Nat × Nat) : Decidable (keyLe x y) := by unfold keyLe; infer_instance

/-- Python tuple comparison, strict: lexicographic. -/
def keyLt (x y : Nat × Nat × Nat) : Prop :=
  x.1 < y.1 ∨ (x.1 = y.1 ∧ (x.2.1 < y.2.1 ∨ (x.2.1 = y.2.1 ∧ x.2.2 < y.2.2)))

instance (x y : Nat × Nat × Nat) : Decidable (keyLt x y) := by unfold keyLt; infer_instance

/-- Stable insertion, modelling one element of Python's stable list.sort with
reverse=True: an earlier element stays ahead of a later one unless the later
one's key is strictly greater. -/
def insertDesc {α : Type} (key : α → Nat × Nat × Nat) (a : α) : List α → List α
  | [] => [a]
  | b :: bs => if keyLe (key b) (key a) then a :: b :: bs else b :: insertDesc key a bs

/-- Python's list.sort(key, reverse=True), modelled as a stable descending
insertion sort (list.sort is stable, and reverse=True preserves stability). -/
def sortDesc {α : Type} (key : α → Nat × Nat × Nat) : List α → List α
  | [] => []
  | a :: as => insertDesc key a (sortDesc key as)

/-- select_latest_file from the source: filter by the required/excluded name
beginnings, stable-sort descending by sort_key, and return the first element. -/
def select_latest_file (files : List FileInfo) (pfx : String) (excl : List String) :
    Option FileInfo :=
  let candidates := files.filter fun f =>
    pfx.data.isPrefixOf f.name.data && !(excl.any fun e => e.data.isPrefixOf f.name.data)
  if candidates.isEmpty then none
  else (sortDesc (sort_key pfx) candidates).head?

/-- Modelled from the spec's words (for the refinement statement of C4): keep
the running best, replacing it only on a strictly greater key, so the first
maximal element in enumeration order wins. -/
def firstMaxAux {α : Type} (key : α → Nat × Nat × Nat) : α → List α → α
  | best, [] => best
  | best, a :: as => firstMaxAux key (if keyLt (key best) (key a) then a else best) as

/-- Modelled from the spec's words: the top-ranked candidate, none on an empty
pool, ties resolved by enumeration order. -/
def firstMax {α : Type} (key : α → Nat × Nat × Nat) : List α → Option α
  | [] => none
  | a :: as => some (firstMaxAux key a as)

/-! ## Remote-call trace model for the ledger append and freeze engines

Every remote Sheets call becomes an event; an environment decides whether each
call succeeds and what each read returns. A trace records the calls that
completed; execution stops at the first failed call, as a raised HttpError
stops the Python code. -/

inductive Ev
  | expandCols (tab : String) (newCount : Int)
  | writeHeader (tab newColLetter value : String)
  | readFormula (tab prevColLetter : String) (startRow endRow : Nat)
  | writeFormula (tab newColLetter : String) (startRow : Nat) (values : List (List String))
  | readValue (tab prevColLetter : String) (startRow endRow : Nat)
  | writeValue (tab prevColLetter : String) (startRow : Nat) (values : List (List String))
  | copyPasteValues (sheetId : Nat) (startRowIndex endRowIndex colIndexZero : Nat)
  | metaWrite (tab : String) (rowIdx : Nat) (newCol : String)
  | metaScanRead (metaSheet : String)
  | clearTarget (tab : String)
  | writeTarget (tab : String) (values : List (List String))
deriving DecidableEq, Repr

/-- The tab whose metadata entry an event overwrites, when it is a metadata
write; none for every other call. -/
def Ev.metaTab : Ev → Option String
  | Ev.metaWrite tab _ _ => some tab
  | _ => none

/-- Metadata-store state obtained by replaying a trace over an initial
tab-to-label assignment. -/
def applyMeta : List Ev → (String → Option String) → String → Option String
  | [], m => m
  | e :: rest, m =>
    match e with
    | Ev.metaWrite tab _ newCol => applyMeta rest (fun t => if t = tab then some newCol else m t)
    | _ => applyMeta rest m

/-- Environment for one tab's update_master_tab: outcome of the expand and
header calls, and per chunk (keyed by its 1-based start row) the outcome of the
formula read, formula write, value read and value write. -/
structure AppendEnv where
  expandOk : Bool
  headerOk : Bool
  formulaData : Nat → Option (List (List String))
  formulaWriteOk : Nat → Bool
  valueData : Nat → Option (List (List String))
  valueWriteOk : Nat → Bool

/-- A fault-free environment whose reads return one non-empty row. -/
def okAppendEnv : AppendEnv :=
  ⟨true, true, fun _ => some [["f"]], fun _ => true, fun _ => some [["v"]], fun _ => true⟩

/-- One chunk of update_master_tab's copy loop (rows s through chunkEnd): read
the previous column in FORMULA mode, write it into the new column when
non-empty, and when freeze-on-append is on, read the previous column in
UNFORMATTED_VALUE mode and overwrite it with the literal values when
non-empty. False means a call raised. -/
def chunk_step (env : AppendEnv) (freezeValues : Bool) (tab prevL newL : String)
    (s chunkEnd : Nat) : List Ev × Bool :=
  match env.formulaData s with
  | none => ([], false)
  | some formulas =>
    match (if formulas.isEmpty then some ([] : List Ev)
           else if env.formulaWriteOk s then some [Ev.writeFormula tab newL s formulas]
           else none) with
    | none => ([Ev.readFormula tab prevL s chunkEnd], false)
    | some wEvs =>
      if freezeValues then
        match env.valueData s with
        | none => (Ev.readFormula tab prevL s chunkEnd :: wEvs, false)
        | some vals =>
          match (if vals.isEmpty then some ([] : List Ev)
                 else if env.valueWriteOk s then some [Ev.writeValue tab prevL s vals]
                 else none) with
          | none => (Ev.readFormula tab prevL s chunkEnd ::
              wEvs ++ [Ev.readValue tab prevL s chunkEnd], false)
          | some vwEvs => (Ev.readFormula tab prevL s chunkEnd ::
              wEvs ++ Ev.readValue tab prevL s chunkEnd :: vwEvs, true)
      else (Ev.readFormula tab prevL s chunkEnd :: wEvs, true)

/-- The chunk schedule of update_master_tab's while loop: (start_row_num,
end_row_num) pairs, with an explicit iteration budget (each iteration advances
row by at least one for a positive chunk size). -/
def chunk_pairs (chunkC dataEnd : Nat) : Nat → Nat → List (Nat × Nat)
  | 0, _ => []
  | fuel + 1, row =>
    if row < dataEnd then
      (row + 1, min (row + chunkC) dataEnd) ::
        chunk_pairs chunkC dataEnd fuel (min (row + chunkC) dataEnd)
    else []

/-- The chunked-copy while loop of update_master_tab (source lines 403-460),
with an explicit iteration budget. -/
def master_chunk_iter (env : AppendEnv) (freezeValues : Bool) (tab prevL newL : String)
    (chunkC dataEnd : Nat) : Nat → Nat → List Ev × Bool
  | 0, _ => ([], true)
  | fuel + 1, row =>
    if row < dataEnd then
      let chunkEnd := min (row + chunkC) dataEnd
      let st := chunk_step env freezeValues tab prevL newL (row + 1) chunkEnd
      if st.2 then
        let rest := master_chunk_iter env freezeValues tab prevL newL chunkC dataEnd fuel chunkEnd
        (st.1 ++ rest.1, rest.2)
      else (st.1, false)
    else ([], true)

/-- The chunked-copy loop started at a given row; the budget dataEnd - row
bounds the iteration count. -/
def master_chunk_loop (env : AppendEnv) (freezeValues : Bool) (tab prevL newL : String)
    (chunkC dataEnd row : Nat) : List Ev × Bool :=
  master_chunk_iter env freezeValues tab prevL newL chunkC dataEnd (dataEnd - row) row

/-- update_master_tab from the source (lines 339-465): compute the new column
from the stored label, skip when there is at most a header row, expand the
grid when the new column exceeds the declared count, write the date header,
run the chunked copy, and return the new label (the input label when skipped,
none when a call raised). -/
def update_master_tab (env : AppendEnv) (freezeValues : Bool) (tab lastDateCol : String)
    (rowCount columnCount : Nat) (maxRows chunkSize : Int) (mondayStr : String) :
    List Ev × Option String :=
  let lastIdx := a1_to_col lastDateCol
  let newIdx := lastIdx + 1
  let effectiveRows := if maxRows > 0 then min rowCount maxRows.toNat else rowCount
  if effectiveRows ≤ 1 then ([], some lastDateCol)
  else
    let prevIdx := lastIdx - 1
    let newL := col_to_a1 newIdx
    let prevL := col_to_a1 (prevIdx + 1)
    let expandEvs : List Ev :=
      if newIdx > (columnCount : Int) then [Ev.expandCols tab newIdx] else []
    if newIdx > (columnCount : Int) ∧ ¬ env.expandOk then ([], none)
    else if ¬ env.headerOk then (expandEvs, none)
    else
      let res := master_chunk_loop env freezeValues tab prevL newL
        (max 1 chunkSize).toNat effectiveRows 1
      (expandEvs ++ Ev.writeHeader tab newL mondayStr :: res.1,
       if res.2 then some (col_to_a1 newIdx) else none)

/-! ## Ledger metadata store and the master phase of run_update -/

structure TabProps where
  sheetId : Nat
  rowCount : Nat
  columnCount : Nat
deriving DecidableEq, Repr

/-- Environment for the metadata store and the per-tab append environments. -/
structure MasterEnv where
  append : String → AppendEnv
  metaWriteOk : Nat → Bool
  metaScan : Option (List (List String))

/-- Scan of the metadata table (values[1:], rows numbered from 2): first row
whose first cell, stripped, equals the tab name. -/
def meta_scan_find (tab : String) : Nat → List (List String) → Option Nat
  | _, [] => none
  | idx, row :: rest =>
    match row with
    | [] => meta_scan_find tab (idx + 1) rest
    | cell :: _ =>
      if cell.trim = tab then some idx else meta_scan_find tab (idx + 1) rest

/-- update_master_meta from the source (lines 292-336): with a configured
fixed-row map, write the single cell; otherwise read the meta table, write at
the first row whose first cell matches the tab name, and silently do nothing
when no row matches. False means a call raised. -/
def update_master_meta (env : MasterEnv) (metaSheet : String) (metaRows : List (String × Nat))
    (tab newCol : String) : List Ev × Bool :=
  match metaRows.find? (fun p => p.1 == tab) with
  | some p =>
    if env.metaWriteOk p.2 then ([Ev.metaWrite tab p.2 newCol], true) else ([], false)
  | none =>
    match env.metaScan with
    | none => ([], false)
    | some values =>
      match meta_scan_find tab 2 (values.drop 1) with
      | some idx =>
        if env.metaWriteOk idx then
          ([Ev.metaScanRead metaSheet, Ev.metaWrite tab idx newCol], true)
        else ([Ev.metaScanRead metaSheet], false)
      | none => ([Ev.metaScanRead metaSheet], true)

/-- Configuration of the master phase, as resolved by run_update. -/
structure MasterCfg where
  freezeValues : Bool
  onlyTab : String
  sheetProps : String → Option TabProps
  masterMeta : String → Option String
  metaSheet : String
  metaRows : List (String × Nat)
  maxRows : Int
  chunkSize : Int
  mondayStr : String

inductive RunErr
  | tabMissing
  | generic
deriving DecidableEq, Repr

/-- The master loop of run_update (source lines 607-637): per tracked tab,
honour the only-tab override, raise TabMissingError on a missing tab or
missing/empty metadata, append through update_master_tab, and afterwards
advance the metadata exactly when the returned label differs from the stored
one. A raise aborts the whole remaining run. -/
def run_master_phase (env : MasterEnv) (cfg : MasterCfg) : List String → List Ev × Option RunErr
  | [] => ([], none)
  | t :: rest =>
    if cfg.onlyTab ≠ "" ∧ t ≠ cfg.onlyTab then run_master_phase env cfg rest
    else
      match cfg.sheetProps t with
      | none => ([], some RunErr.tabMissing)
      | some props =>
        match cfg.masterMeta t with
        | none => ([], some RunErr.tabMissing)
        | some lastCol =>
          if lastCol = "" then ([], some RunErr.tabMissing)
          else
            match update_master_tab (env.append t) cfg.freezeValues t lastCol
              props.rowCount props.columnCount cfg.maxRows cfg.chunkSize cfg.mondayStr with
            | (evs, none) => (evs, some RunErr.generic)
            | (evs, some newCol) =>
              if newCol ≠ lastCol then
                match update_master_meta env cfg.metaSheet cfg.metaRows t newCol with
                | (mevs, false) => (evs ++ mevs, some RunErr.generic)
                | (mevs, true) =>
                  match run_master_phase env cfg rest with
                  | (revs, r) => (evs ++ mevs ++ revs, r)
              else
                match run_master_phase env cfg rest with
                | (revs, r) => (evs ++ revs, r)

/-! ## Value freeze engine (freeze_master_values.py) -/

/-- Environment for the freeze job's copyPaste calls, keyed by the chunk's
0-based start row index. -/
structure FreezeEnv where
  copyOk : Nat → Bool

/-- A fault-free freeze environment. -/
def okFreezeEnv : FreezeEnv := ⟨fun _ => true⟩

/-- The chunked copyPaste while loop of run_freeze (source lines 209-222),
with an explicit iteration budget. -/
def freeze_chunk_iter (env : FreezeEnv) (sheetId colIndexZero chunkC effRows : Nat) :
    Nat → Nat → List Ev × Bool
  | 0, _ => ([], true)
  | fuel + 1, row =>
    if row < effRows then
      let endRow := min (row + chunkC) effRows
      if env.copyOk row then
        let rest := freeze_chunk_iter env sheetId colIndexZero chunkC effRows fuel endRow
        (Ev.copyPasteValues sheetId row endRow colIndexZero :: rest.1, rest.2)
      else ([], false)
    else ([], true)

/-- The freeze loop started at row 1 with budget effRows - 1. -/
def freeze_chunk_loop (env : FreezeEnv) (sheetId colIndexZero chunkC effRows : Nat) :
    List Ev × Bool :=
  freeze_chunk_iter env sheetId colIndexZero chunkC effRows (effRows - 1) 1

inductive FreezeTabResult
  | skippedInvalid
  | skippedNoData
  | completed
  | failed
deriving DecidableEq, Repr

/-- One tab of run_freeze (source lines 186-224): skip with a diagnostic when
the stored label parses to a previous-column index below 1, skip when there
are no data rows, else chunk-copyPaste the previous column onto itself with
PASTE_VALUES. -/
def run_freeze_tab (env : FreezeEnv) (props : TabProps) (lastCol : String)
    (maxRows chunkSize : Int) : List Ev × FreezeTabResult :=
  let lastIdx := a1_to_col lastCol
  let prevIdx := lastIdx - 1
  if prevIdx < 1 then ([], FreezeTabResult.skippedInvalid)
  else
    let effectiveRows := if maxRows > 0 then min props.rowCount maxRows.toNat else props.rowCount
    if effectiveRows ≤ 1 then ([], FreezeTabResult.skippedNoData)
    else
      let res := freeze_chunk_loop env props.sheetId (prevIdx - 1).toNat
        (max 1 chunkSize).toNat effectiveRows
      (res.1, if res.2 then FreezeTabResult.completed else FreezeTabResult.failed)

/-! ## Extraction stage of run_update -/

/-- Kind of failure of a remote read: HttpError (the only class the extract
loop catches) or any other raised exception. -/
inductive ReadErr
  | httpError
  | otherError
deriving DecidableEq, Repr

/-- One source-beginning/target-tab/excluded-beginnings mapping from the
configuration. -/
structure Mapping where
  pfx : String
  target_tab : String
  excl : List String
deriving DecidableEq, Repr

/-- Environment for the extract loop: result of reading a source dataset's
values (keyed by the dataset id), and outcomes of the clear and write calls
(keyed by the target tab). -/
structure ExtractEnv where
  readSource : String → Except ReadErr (List (List String))
  clearOk : String → Bool
  writeOk : String → Bool

/-- write_target_values from the source (lines 512-528): an empty value list
returns immediately without issuing the update; none means the update call
raised. -/
def write_target_values (env : ExtractEnv) (tab : String) (values : List (List String)) :
    Option (List Ev) :=
  if values.isEmpty then some []
  else if env.writeOk tab then some [Ev.writeTarget tab values]
  else none

/-- The extract loop of run_update (source lines 573-605): per mapping, raise
TabMissingError when the target tab is absent, skip on a selection miss, read
the selected source (catching only HttpError, downgraded to a skip), then
clear the target range and write the values. -/
def run_extract_phase (env : ExtractEnv) (files : List FileInfo) (targetTabs : List String) :
    List Mapping → List Ev × Option RunErr
  | [] => ([], none)
  | m :: rest =>
    if m.target_tab ∈ targetTabs then
      match select_latest_file files m.pfx m.excl with
      | none => run_extract_phase env files targetTabs rest
      | some f =>
        match env.readSource f.id with
        | Except.error ReadErr.httpError => run_extract_phase env files targetTabs rest
        | Except.error ReadErr.otherError => ([], some RunErr.generic)
        | Except.ok values =>
          if env.clearOk m.target_tab then
            match write_target_values env m.target_tab values with
            | none => ([Ev.clearTarget m.target_tab], some RunErr.generic)
            | some wEvs =>
              match run_extract_phase env files targetTabs rest with
              | (revs, r) => (Ev.clearTarget m.target_tab :: (wEvs ++ revs), r)
          else ([], some RunErr.generic)
    else ([], some RunErr.tabMissing)

/-- Staging-tab contents obtained by replaying a trace: clear empties the
configured range, a target write replaces it. -/
def applyStaging : List Ev → (String → List (List String)) → String → List (List String)
  | [], σ => σ
  | e :: rest, σ =>
    match e with
    | Ev.clearTarget tab => applyStaging rest (fun t => if t = tab then [] else σ t)
    | Ev.writeTarget tab values => applyStaging rest (fun t => if t = tab then values else σ t)
    | _ => applyStaging rest σ

/-! ## Process entry points and retry policy -/

def RETRY_COUNT : Nat := 3

def RETRY_DELAY_SECONDS : Nat := 120

/-- Exit code, number of attempts performed, and number of fixed-delay sleeps
taken between attempts. -/
structure MainOutcome where
  exitCode : Nat
  attempts : Nat
  sleeps : Nat
deriving DecidableEq, Repr

/-- main of update_competitor_sheets.py (lines 642-657): TabMissingError exits
2 at once; any other exception is retried after a fixed delay until the
attempt budget is exhausted, then exits 1; success exits 0. The
remaining-attempt count drives the recursion; runs gives each attempt's
outcome. -/
def update_main_iter (runs : Nat → Option RunErr) : Nat → Nat → Nat → MainOutcome
  | 0, attempt, sleeps => ⟨1, attempt - 1, sleeps⟩
  | remaining + 1, attempt, sleeps =>
    match runs attempt with
    | none => ⟨0, attempt, sleeps⟩
    | some RunErr.tabMissing => ⟨2, attempt, sleeps⟩
    | some RunErr.generic =>
      if attempt < RETRY_COUNT then update_main_iter runs remaining (attempt + 1) (sleeps + 1)
      else ⟨1, attempt, sleeps⟩

def update_main (runs : Nat → Option RunErr) : MainOutcome :=
  update_main_iter runs RETRY_COUNT 1 0

/-- main of freeze_master_values.py (lines 227-238): every exception, including
the missing-tab and missing-metadata RuntimeErrors, is caught by the same
generic handler and retried; exhaustion exits 1; success exits 0. -/
def freeze_main_iter (runs : Nat → Option RunErr) : Nat → Nat → Nat → MainOutcome
  | 0, attempt, sleeps => ⟨1, attempt - 1, sleeps⟩
  | remaining + 1, attempt, sleeps =>
    match runs attempt with
    | none => ⟨0, attempt, sleeps⟩
    | some _ =>
      if attempt < RETRY_COUNT then freeze_main_iter runs remaining (attempt + 1) (sleeps + 1)
      else ⟨1, attempt, sleeps⟩

def freeze_main (runs : Nat → Option RunErr) : MainOutcome :=
  freeze_main_iter runs RETRY_COUNT 1 0

/-- The (startRow, endRow) range of a formula-mode read event. -/
def Ev.readRange : Ev → Option (Nat × Nat)
  | Ev.readFormula _ _ s e => some (s, e)
  | _ => none

/-- The (startRowIndex, endRowIndex) range of a copyPaste event. -/
def Ev.copyRange : Ev → Option (Nat × Nat)
  | Ev.copyPasteValues _ s e _ => some (s, e)
  | _ => none

/-- An append environment whose every chunk read raises, exercising the
failure path of the chunked copy. -/
def failReadAppendEnv : AppendEnv :=
  ⟨true, true, fun _ => none, fun _ => true, fun _ => none, fun _ => true⟩

/-- A master environment whose every tab append fails on its first chunk
read. -/
def demoMasterEnv : MasterEnv :=
  ⟨fun _ => failReadAppendEnv, fun _ => true, some []⟩

/-- A one-tab master configuration (5 rows, 5 columns, metadata at B) for
concrete runs. -/
def demoMasterCfg : MasterCfg :=
  ⟨true, "", fun t => if t = "Tab1" then some ⟨0, 5, 5⟩ else none,
   fun t => if t = "Tab1" then some "B" else none, "Master_Meta", [("Tab1", 2)],
   5000, 2, "2026-10-06"⟩

/-- An extract environment whose every source read raises HttpError. -/
def httpFailExtractEnv : ExtractEnv :=
  ⟨fun _ => Except.error ReadErr.httpError, fun _ => true, fun _ => true⟩

/-- An extract environment whose every source read returns zero rows. -/
def emptyReadExtractEnv : ExtractEnv :=
  ⟨fun _ => Except.ok [], fun _ => true, fun _ => true⟩

/-- One concrete candidate dataset. -/
def demoFiles : List FileInfo := [⟨"f1", "data_241201", none, none⟩]

/-- One concrete extraction mapping. -/
def demoMapping : Mapping := ⟨"data", "Tab1", []⟩

/-! ## Theorems -/

theorem letter_char_facts (r : Nat) (hr : r < 26) :
    (Char.ofNat (65 + r)).toUpper = Char.ofNat (65 + r) ∧
    ('A' ≤ Char.ofNat (65 + r) ∧ Char.ofNat (65 + r) ≤ 'Z') ∧
    ((Char.ofNat (65 + r)).toNat : Int) - 64 = (r : Int) + 1 := by
  interval_cases r <;> exact ⟨by decide, ⟨by decide, by decide⟩, by decide⟩

theorem a1_to_col_go_col_to_a1_go (fuel : Nat) :
    ∀ (index : Nat) (rest : List Char) (acc : Int),
      a1_to_col_go (col_to_a1_go fuel index rest) acc =
        a1_to_col_go rest (col_digit_val fuel index acc) := by
  induction fuel with
  | zero => intro index rest acc; rfl
  | succ fuel ih =>
    intro index rest acc
    by_cases h : index = 0
    · simp [col_to_a1_go, col_digit_val, h]
    · have hr : (index - 1) % 26 < 26 := Nat.mod_lt _ (by norm_num)
      obtain ⟨hup, ⟨hA, hZ⟩, hval⟩ := letter_char_facts ((index - 1) % 26) hr
      rw [col_to_a1_go, col_digit_val, if_neg h, if_neg h, ih]
      show a1_to_col_go (Char.ofNat (65 + (index - 1) % 26) :: rest) _ = _
      rw [a1_to_col_go]
      simp only [hup, hA, hZ, and_self, if_true, hval]
      norm_cast

theorem col_digit_val_eq (fuel : Nat) :
    ∀ index : Nat, index ≤ fuel → col_digit_val fuel index 0 = (index : Int) := by
  induction fuel with
  | zero => intro index h; interval_cases index; rfl
  | succ fuel ih =>
    intro index h
    by_cases h0 : index = 0
    · simp [col_digit_val, h0]
    · have hq : (index - 1) / 26 ≤ fuel := by
        have := Nat.div_le_self (index - 1) 26
        omega
      rw [col_digit_val, if_neg h0, ih _ hq]
      have hdm := Nat.div_add_mod (index - 1) 26
      have h1 : 1 ≤ index := Nat.one_le_iff_ne_zero.mpr h0
      push_cast
      omega

/-- C7: Column Codec round-trip: for every integer n ≥ 1,
a1_to_col (col_to_a1 n) = n; and for every n ≤ 0, col_to_a1 n is the empty
label. -/
theorem C7_codec_roundtrip :
    (∀ n : Int, 1 ≤ n → a1_to_col (col_to_a1 n) = n) ∧
    (∀ n : Int, n ≤ 0 → col_to_a1 n = "") := by
  constructor
  · intro n hn
    unfold a1_to_col col_to_a1
    show a1_to_col_go (col_to_a1_go n.toNat n.toNat []) 0 = n
    rw [a1_to_col_go_col_to_a1_go, col_digit_val_eq n.toNat n.toNat le_rfl]
    show ((n.toNat : Nat) : Int) = n
    exact Int.toNat_of_nonneg (by omega)
  · intro n hn
    unfold col_to_a1
    have h0 : n.toNat = 0 := Int.toNat_of_nonpos hn
    rw [h0]
    rfl

/-- Witness for C7 at concrete inputs n = 28 and n = -3. -/
theorem C7_codec_roundtrip_witness :
    a1_to_col (col_to_a1 28) = 28 ∧ col_to_a1 (-3) = "" :=
  ⟨C7_codec_roundtrip.1 28 (by norm_num), C7_codec_roundtrip.2 (-3) (by norm_num)⟩

theorem keyLt_iff_not_le (x y : Nat × Nat × Nat) : keyLt x y ↔ ¬ keyLe y x := by
  obtain ⟨a, b, c⟩ := x; obtain ⟨d, e, g⟩ := y
  unfold keyLt keyLe; dsimp only; omega

theorem keyLe_trans {x y z : Nat × Nat × Nat} (h1 : keyLe x y) (h2 : keyLe y z) : keyLe x z := by
  obtain ⟨a, b, c⟩ := x; obtain ⟨d, e, g⟩ := y; obtain ⟨i, j, k⟩ := z
  unfold keyLe at *; dsimp only at *; omega

theorem keyLt_trans {x y z : Nat × Nat × Nat} (h1 : keyLt x y) (h2 : keyLt y z) : keyLt x z := by
  obtain ⟨a, b, c⟩ := x; obtain ⟨d, e, g⟩ := y; obtain ⟨i, j, k⟩ := z
  unfold keyLt at *; dsimp only at *; omega

theorem keyLe_refl (x : Nat × Nat × Nat) : keyLe x x := by
  obtain ⟨a, b, c⟩ := x; unfold keyLe; dsimp only; omega

theorem firstMaxAux_combine {α : Type} (key : α → Nat × Nat × Nat) (l : List α) :
    ∀ best : α, firstMaxAux key best l =
      (match firstMax key l with
       | none => best
       | some m => if keyLt (key best) (key m) then m else best) := by
  induction l with
  | nil => intro best; rfl
  | cons a as ih =>
    intro best
    rw [firstMaxAux, firstMax, ih, ih a]
    cases hm : firstMax key as with
    | none => dsimp only
    | some m =>
      dsimp only
      by_cases h1 : keyLt (key best) (key a)
      · by_cases h2 : keyLt (key a) (key m)
        · have h3 : keyLt (key best) (key m) := keyLt_trans h1 h2
          simp [h1, h2, h3]
        · simp [h1, h2]
      · by_cases h2 : keyLt (key a) (key m)
        · simp [h1, h2]
        · have hba : keyLe (key a) (key best) :=
            not_not.mp (fun hc => h1 ((keyLt_iff_not_le _ _).mpr hc))
          have hma : keyLe (key m) (key a) :=
            not_not.mp (fun hc => h2 ((keyLt_iff_not_le _ _).mpr hc))
          have h3 : ¬ keyLt (key best) (key m) :=
            fun hc => ((keyLt_iff_not_le _ _).mp hc) (keyLe_trans hma hba)
          simp [h1, h2, h3]

theorem keyLe_of_keyLt {x y : Nat × Nat × Nat} (h : keyLt x y) : keyLe x y := by
  obtain ⟨a, b, c⟩ := x; obtain ⟨d, e, g⟩ := y
  unfold keyLt at h; unfold keyLe; dsimp only at *; omega

theorem keyLe_of_not_keyLt {x y : Nat × Nat × Nat} (h : ¬ keyLt x y) : keyLe y x :=
  not_not.mp (fun hc => h ((keyLt_iff_not_le _ _).mpr hc))

theorem insertDesc_ne_nil {α : Type} (key : α → Nat × Nat × Nat) (a : α) (l : List α) :
    insertDesc key a l ≠ [] := by
  cases l with
  | nil => simp [insertDesc]
  | cons b bs => unfold insertDesc; split <;> simp

theorem sortDesc_head {α : Type} (key : α → Nat × Nat × Nat) (l : List α) :
    (sortDesc key l).head? = firstMax key l := by
  induction l with
  | nil => rfl
  | cons a as ih =>
    rw [sortDesc, firstMax]
    cases hs : sortDesc key as with
    | nil =>
      rw [hs] at ih
      have hnone : firstMax key as = none := ih.symm
      have has : as = [] := by
        cases as with
        | nil => rfl
        | cons x xs => simp [firstMax] at hnone
      subst has
      rfl
    | cons b bs =>
      have hfm : firstMax key as = some b := by rw [← ih, hs]; rfl
      rw [firstMaxAux_combine, hfm]
      dsimp only
      unfold insertDesc
      by_cases h : keyLe (key b) (key a)
      · have h2 : ¬ keyLt (key a) (key b) := fun hc => ((keyLt_iff_not_le _ _).mp hc) h
        simp [h, h2]
      · have h2 : keyLt (key a) (key b) := (keyLt_iff_not_le _ _).mpr h
        simp [h, h2]

theorem firstMaxAux_mem {α : Type} (key : α → Nat × Nat × Nat) (l : List α) :
    ∀ best, firstMaxAux key best l = best ∨ firstMaxAux key best l ∈ l := by
  induction l with
  | nil => intro best; left; rfl
  | cons a as ih =>
    intro best
    simp only [firstMaxAux]
    by_cases h : keyLt (key best) (key a)
    · rw [if_pos h]
      rcases ih a with h1 | h1
      · right; rw [h1]; exact List.mem_cons_self a as
      · right; exact List.mem_cons_of_mem _ h1
    · rw [if_neg h]
      rcases ih best with h1 | h1
      · left; exact h1
      · right; exact List.mem_cons_of_mem _ h1

theorem firstMaxAux_max {α : Type} (key : α → Nat × Nat × Nat) (l : List α) :
    ∀ best, keyLe (key best) (key (firstMaxAux key best l)) ∧
      ∀ g ∈ l, keyLe (key g) (key (firstMaxAux key best l)) := by
  induction l with
  | nil => intro best; exact ⟨keyLe_refl _, by simp⟩
  | cons a as ih =>
    intro best
    simp only [firstMaxAux]
    by_cases h : keyLt (key best) (key a)
    · rw [if_pos h]
      obtain ⟨hb, hall⟩ := ih a
      refine ⟨keyLe_trans (keyLe_of_keyLt h) hb, ?_⟩
      intro g hg
      rcases List.mem_cons.mp hg with hg | hg
      · subst hg; exact hb
      · exact hall g hg
    · rw [if_neg h]
      obtain ⟨hb, hall⟩ := ih best
      refine ⟨hb, ?_⟩
      intro g hg
      rcases List.mem_cons.mp hg with hg | hg
      · subst hg; exact keyLe_trans (keyLe_of_not_keyLt h) hb
      · exact hall g hg

theorem daysInMonth_le (y m : Nat) : daysInMonth y m ≤ 31 := by
  unfold daysInMonth
  split
  · norm_num
  · split
    · norm_num
    · split <;> norm_num

theorem mkPyDatetime_some {y mo d h mi s : Nat} {t : PyDatetime}
    (hmk : mkPyDatetime y mo d h mi s = some t) :
    t.year = y ∧ 1 ≤ t.month ∧ t.month ≤ 12 ∧ 1 ≤ t.day ∧ t.day ≤ 31 ∧
      t.hour ≤ 23 ∧ t.minute ≤ 59 ∧ t.second ≤ 59 := by
  unfold mkPyDatetime at hmk
  split at hmk
  · rename_i hcond
    obtain ⟨h1, h2, h3, h4, h5, h6, h7, h8, h9⟩ := hcond
    have hinj : (⟨y, mo, d, h, mi, s⟩ : PyDatetime) = t := by
      injection hmk
    subst hinj
    exact ⟨rfl, h3, h4, h5, le_trans h6 (daysInMonth_le y mo), h7, h8, h9⟩
  · exact absurd hmk (by simp)

theorem parse_timestamp_year {name pfx : String} {t : PyDatetime}
    (h : parse_timestamp_from_name name pfx = some t) : 2000 ≤ t.year := by
  unfold parse_timestamp_from_name at h
  split at h
  · split at h
    · exact absurd h (by simp)
    · split at h
      · have := (mkPyDatetime_some h).1
        omega
      · exact absurd h (by simp)
  · exact absurd h (by simp)

theorem datetimeMin_code_lt {t : PyDatetime} (hy : 2000 ≤ t.year) :
    datetimeMin.code < t.code := by
  obtain ⟨y, mo, d, h, mi, s⟩ := t
  simp only [PyDatetime.code, datetimeMin] at *
  omega

/-- C4: the Source Selector returns, among the candidates surviving the
required/excluded name-beginning filter, the one maximal under the
lexicographic (nameTimestamp, modifiedAt, createdAt) descending order with
absent components as datetime.min; no candidate exactly when the filtered set
is empty; ties resolve to the earliest candidate in enumeration order (the
firstMax refinement); and any name-parsed timestamp strictly outranks an
absent component. -/
theorem C4_source_selector (files : List FileInfo) (pfx : String) (excl : List String) :
    (select_latest_file files pfx excl = none ↔
      files.filter (fun f =>
        pfx.data.isPrefixOf f.name.data && !(excl.any fun e => e.data.isPrefixOf f.name.data)) = []) ∧
    select_latest_file files pfx excl =
      firstMax (sort_key pfx)
        (files.filter fun f =>
          pfx.data.isPrefixOf f.name.data && !(excl.any fun e => e.data.isPrefixOf f.name.data)) ∧
    (∀ r, select_latest_file files pfx excl = some r →
      r ∈ files.filter (fun f =>
        pfx.data.isPrefixOf f.name.data && !(excl.any fun e => e.data.isPrefixOf f.name.data)) ∧
      ∀ g ∈ files.filter (fun f =>
        pfx.data.isPrefixOf f.name.data && !(excl.any fun e => e.data.isPrefixOf f.name.data)),
        keyLe (sort_key pfx g) (sort_key pfx r)) ∧
    (∀ nm t, parse_timestamp_from_name nm pfx = some t → datetimeMin.code < t.code) := by
  have hsel : select_latest_file files pfx excl =
      firstMax (sort_key pfx)
        (files.filter fun f =>
          pfx.data.isPrefixOf f.name.data && !(excl.any fun e => e.data.isPrefixOf f.name.data)) := by
    unfold select_latest_file
    by_cases he : (files.filter fun f =>
        pfx.data.isPrefixOf f.name.data && !(excl.any fun e => e.data.isPrefixOf f.name.data)).isEmpty
    · rw [if_pos he]
      rw [List.isEmpty_iff] at he
      rw [he]
      rfl
    · rw [if_neg he]
      exact sortDesc_head _ _
  refine ⟨?_, hsel, ?_, ?_⟩
  · rw [hsel]
    cases hc : files.filter fun f =>
        pfx.data.isPrefixOf f.name.data && !(excl.any fun e => e.data.isPrefixOf f.name.data) with
    | nil => simp [firstMax]
    | cons c cs => simp [firstMax]
  · intro r hr
    rw [hsel] at hr
    cases hc : files.filter fun f =>
        pfx.data.isPrefixOf f.name.data && !(excl.any fun e => e.data.isPrefixOf f.name.data) with
    | nil => rw [hc] at hr; exact absurd hr (by simp [firstMax])
    | cons c cs =>
      rw [hc] at hr
      have hr' : firstMaxAux (sort_key pfx) c cs = r := by
        simpa [firstMax] using hr
      constructor
      · rw [← hr']
        rcases firstMaxAux_mem (sort_key pfx) cs c with h1 | h1
        · rw [h1]; exact List.mem_cons_self c cs
        · exact List.mem_cons_of_mem _ h1
      · intro g hg
        obtain ⟨hb, hall⟩ := firstMaxAux_max (sort_key pfx) cs c
        rw [← hr']
        rcases List.mem_cons.mp hg with hg | hg
        · subst hg; exact hb
        · exact hall g hg
  · intro nm t ht
    exact datetimeMin_code_lt (parse_timestamp_year ht)

/-- Witness for C4: three concrete candidates with name stamps 241201, 241202,
241130 under the same beginning; the selector picks the 241202 one, certified
maximal by the main statement. -/
theorem C4_source_selector_witness :
    (⟨"f2", "data_241202", none, none⟩ : FileInfo) ∈
      ([⟨"f1", "data_241201", none, none⟩, ⟨"f2", "data_241202", none, none⟩,
        ⟨"f3", "data_241130", none, none⟩] : List FileInfo).filter (fun f =>
          "data".data.isPrefixOf f.name.data &&
            !(([] : List String).any fun e => e.data.isPrefixOf f.name.data)) ∧
    ∀ g ∈ ([⟨"f1", "data_241201", none, none⟩, ⟨"f2", "data_241202", none, none⟩,
        ⟨"f3", "data_241130", none, none⟩] : List FileInfo).filter (fun f =>
          "data".data.isPrefixOf f.name.data &&
            !(([] : List String).any fun e => e.data.isPrefixOf f.name.data)),
      keyLe (sort_key "data" g) (sort_key "data" ⟨"f2", "data_241202", none, none⟩) :=
  (C4_source_selector
    [⟨"f1", "data_241201", none, none⟩, ⟨"f2", "data_241202", none, none⟩,
     ⟨"f3", "data_241130", none, none⟩] "data" []).2.2.1
    ⟨"f2", "data_241202", none, none⟩ (by decide)


theorem chunk_step_no_meta {env : AppendEnv} {fv : Bool} {tab prevL newL : String}
    {s chunkEnd : Nat} {ev : Ev}
    (h : ev ∈ (chunk_step env fv tab prevL newL s chunkEnd).1) : ev.metaTab = none := by
  unfold chunk_step at h
  split at h
  · simp at h
  · split at h
    · simp at h
      subst h
      rfl
    · rename_i formulas wEvs hw
      have hwEvs : ∀ x ∈ wEvs, Ev.metaTab x = none := by
        intro x hx
        split at hw
        · cases hw
          simp at hx
        · split at hw
          · cases hw
            simp at hx
            subst hx
            rfl
          · exact absurd hw (by simp)
      split at h
      · split at h
        · simp at h
          rcases h with h | h
          · subst h; rfl
          · exact hwEvs ev h
        · split at h
          · simp at h
            rcases h with h | h | h
            · subst h; rfl
            · exact hwEvs ev h
            · subst h; rfl
          · rename_i vals vwEvs hvw
            have hvwEvs : ∀ x ∈ vwEvs, Ev.metaTab x = none := by
              intro x hx
              split at hvw
              · cases hvw
                simp at hx
              · split at hvw
                · cases hvw
                  simp at hx
                  subst hx
                  rfl
                · exact absurd hvw (by simp)
            simp at h
            rcases h with h | h | h | h
            · subst h; rfl
            · exact hwEvs ev h
            · subst h; rfl
            · exact hvwEvs ev h
      · simp at h
        rcases h with h | h
        · subst h; rfl
        · exact hwEvs ev h

theorem master_chunk_iter_no_meta {env : AppendEnv} {fv : Bool} {tab prevL newL : String}
    {chunkC dataEnd : Nat} :
    ∀ (fuel row : Nat) (ev : Ev),
      ev ∈ (master_chunk_iter env fv tab prevL newL chunkC dataEnd fuel row).1 →
      ev.metaTab = none := by
  intro fuel
  induction fuel with
  | zero => intro row ev h; simp [master_chunk_iter] at h
  | succ fuel ih =>
    intro row ev h
    rw [master_chunk_iter] at h
    split at h
    · dsimp only at h
      split at h
      · rw [List.mem_append] at h
        rcases h with h | h
        · exact chunk_step_no_meta h
        · exact ih _ ev h
      · exact chunk_step_no_meta h
    · simp at h

theorem master_chunk_loop_no_meta {env : AppendEnv} {fv : Bool} {tab prevL newL : String}
    {chunkC dataEnd row : Nat} {ev : Ev}
    (h : ev ∈ (master_chunk_loop env fv tab prevL newL chunkC dataEnd row).1) :
    ev.metaTab = none := by
  unfold master_chunk_loop at h
  exact master_chunk_iter_no_meta _ _ ev h

theorem update_master_tab_no_meta {env : AppendEnv} {fv : Bool} {tab lastCol : String}
    {rc cc : Nat} {mr cs : Int} {ms : String} {ev : Ev}
    (h : ev ∈ (update_master_tab env fv tab lastCol rc cc mr cs ms).1) : ev.metaTab = none := by
  unfold update_master_tab at h
  dsimp only at h
  repeat' split at h
  all_goals
    first
    | exact absurd h (List.not_mem_nil ev)
    | (simp only [List.mem_append, List.mem_cons, List.mem_singleton, List.not_mem_nil,
        List.nil_append, List.singleton_append, or_false, false_or] at h
       rcases h with h | h | h
       · subst h; rfl
       · subst h; rfl
       · exact master_chunk_loop_no_meta h)
    | (simp only [List.mem_append, List.mem_cons, List.mem_singleton, List.not_mem_nil,
        List.nil_append, List.singleton_append, or_false, false_or] at h
       rcases h with h | h
       · subst h; rfl
       · exact master_chunk_loop_no_meta h)
    | (simp only [List.mem_singleton] at h
       subst h
       rfl)


theorem update_master_meta_meta_tab {env : MasterEnv} {ms : String}
    {mrows : List (String × Nat)} {tab newCol : String} {ev : Ev}
    (h : ev ∈ (update_master_meta env ms mrows tab newCol).1) :
    ev.metaTab = none ∨ ev.metaTab = some tab := by
  unfold update_master_meta at h
  split at h
  · split at h
    · simp at h
      subst h
      right
      rfl
    · simp at h
  · split at h
    · simp at h
    · split at h
      · split at h
        · simp at h
          rcases h with h | h
          · subst h; left; rfl
          · subst h; right; rfl
        · simp at h
          subst h
          left
          rfl
      · simp at h
        subst h
        left
        rfl

theorem applyMeta_of_no_write (t : String) : ∀ (tr : List Ev) (m0 : String → Option String),
    (∀ ev ∈ tr, ev.metaTab ≠ some t) → applyMeta tr m0 t = m0 t := by
  intro tr
  induction tr with
  | nil => intro m0 _; rfl
  | cons e rest ih =>
    intro m0 h
    cases e
    case metaWrite tab rowIdx newCol =>
      have hne : ¬ t = tab := by
        intro hc
        exact (h _ (List.mem_cons_self _ _)) (by rw [hc]; rfl)
      show applyMeta rest (fun u => if u = tab then some newCol else m0 u) t = m0 t
      rw [ih _ (fun ev hev => h ev (List.mem_cons_of_mem _ hev))]
      simp [hne]
    all_goals exact ih _ (fun ev hev => h ev (List.mem_cons_of_mem _ hev))

theorem run_master_phase_fail_protects (env : MasterEnv) (cfg : MasterCfg) (t : String)
    (pt : TabProps) (lastCol : String)
    (hp : cfg.sheetProps t = some pt) (hm : cfg.masterMeta t = some lastCol)
    (hfail : (update_master_tab (env.append t) cfg.freezeValues t lastCol pt.rowCount
      pt.columnCount cfg.maxRows cfg.chunkSize cfg.mondayStr).2 = none) :
    ∀ tabs : List String,
      (∀ ev ∈ (run_master_phase env cfg tabs).1, ev.metaTab ≠ some t) ∧
      (t ∈ tabs → (cfg.onlyTab = "" ∨ t = cfg.onlyTab) →
        (run_master_phase env cfg tabs).2 ≠ none) := by
  intro tabs
  induction tabs with
  | nil =>
    constructor
    · intro ev hev
      simp [run_master_phase] at hev
    · intro hmem
      simp at hmem
  | cons t0 rest ih =>
    rw [run_master_phase]
    split
    · rename_i hskip
      constructor
      · exact ih.1
      · intro hmem honly
        rcases List.mem_cons.mp hmem with he | he
        · exfalso
          rcases honly with ho | ho
          · exact hskip.1 ho
          · exact hskip.2 (by rw [← he, ho])
        · exact ih.2 he honly
    · cases hps : cfg.sheetProps t0 with
      | none => exact ⟨fun ev hev => by simp at hev, fun _ _ => by simp⟩
      | some props =>
        cases hmm : cfg.masterMeta t0 with
        | none => exact ⟨fun ev hev => by simp at hev, fun _ _ => by simp⟩
        | some lc =>
          dsimp only
          by_cases hlc : lc = ""
          · rw [if_pos hlc]
            exact ⟨fun ev hev => by simp at hev, fun _ _ => by simp⟩
          · rw [if_neg hlc]
            cases hu : update_master_tab (env.append t0) cfg.freezeValues t0 lc
              props.rowCount props.columnCount cfg.maxRows cfg.chunkSize cfg.mondayStr with
            | mk evs res =>
              have hu_no_meta : ∀ ev ∈ evs, Ev.metaTab ev = none := by
                intro ev hev
                refine @update_master_tab_no_meta (env.append t0) cfg.freezeValues t0 lc
                  props.rowCount props.columnCount cfg.maxRows cfg.chunkSize cfg.mondayStr
                  ev ?_
                rw [hu]
                exact hev
              cases res with
              | none =>
                dsimp only
                constructor
                · intro ev hev
                  rw [hu_no_meta ev hev]
                  simp
                · intro _ _
                  simp
              | some newCol =>
                have hne : t0 ≠ t := by
                  intro he
                  subst he
                  rw [hp] at hps
                  rw [hm] at hmm
                  have h1 : pt = props := by injection hps
                  have h2 : lastCol = lc := by injection hmm
                  rw [h1, h2] at hfail
                  rw [hu] at hfail
                  exact absurd hfail (by simp)
                dsimp only
                split
                · cases hmeta : update_master_meta env cfg.metaSheet cfg.metaRows t0 newCol with
                  | mk mevs mok =>
                    have hmeta_tab : ∀ ev ∈ mevs, Ev.metaTab ev ≠ some t := by
                      intro ev hev hc
                      have : ev.metaTab = none ∨ ev.metaTab = some t0 := by
                        refine @update_master_meta_meta_tab env cfg.metaSheet
                          cfg.metaRows t0 newCol ev ?_
                        rw [hmeta]
                        exact hev
                      rcases this with h1 | h1
                      · rw [h1] at hc
                        exact absurd hc (by simp)
                      · rw [h1] at hc
                        have : t0 = t := by injection hc
                        exact hne this
                    cases mok with
                    | false =>
                      dsimp only
                      constructor
                      · intro ev hev
                        rcases List.mem_append.mp hev with hev | hev
                        · rw [hu_no_meta ev hev]
                          simp
                        · exact hmeta_tab ev hev
                      · intro _ _
                        simp
                    | true =>
                      cases hrun : run_master_phase env cfg rest with
                      | mk revs r =>
                        dsimp only
                        constructor
                        · intro ev hev
                          rcases List.mem_append.mp hev with hev | hev
                          · rcases List.mem_append.mp hev with hev | hev
                            · rw [hu_no_meta ev hev]
                              simp
                            · exact hmeta_tab ev hev
                          · refine ih.1 ev ?_
                            rw [hrun]
                            exact hev
                        · intro hmem honly
                          rcases List.mem_cons.mp hmem with he | he
                          · exact absurd he.symm hne
                          · have := ih.2 he honly
                            rw [hrun] at this
                            exact this
                · cases hrun : run_master_phase env cfg rest with
                  | mk revs r =>
                    dsimp only
                    constructor
                    · intro ev hev
                      rcases List.mem_append.mp hev with hev | hev
                      · rw [hu_no_meta ev hev]
                        simp
                      · refine ih.1 ev ?_
                        rw [hrun]
                        exact hev
                    · intro hmem honly
                      rcases List.mem_cons.mp hmem with he | he
                      · exact absurd he.symm hne
                      · have := ih.2 he honly
                        rw [hrun] at this
                        exact this

/-- C1: the last-column metadata is advanced only after a tab's append has
completed: update_master_tab itself never writes metadata (so metadata is
never written before or during the chunked copy), and when the append for a
tracked tab fails (a chunk read or write raised, result none), the run's
trace contains no metadata write for that tab, replaying the trace keeps the
tab's previous metadata value for every initial state, and the run aborts with
an error once the tab is reached. -/
theorem C1_meta_only_after_append :
    (∀ (env : AppendEnv) (fv : Bool) (tab lastCol : String) (rc cc : Nat) (mr cs : Int)
       (ms : String) (ev : Ev),
       ev ∈ (update_master_tab env fv tab lastCol rc cc mr cs ms).1 → ev.metaTab = none) ∧
    (∀ (env : MasterEnv) (cfg : MasterCfg) (t : String) (pt : TabProps) (lastCol : String),
       cfg.sheetProps t = some pt → cfg.masterMeta t = some lastCol →
       (update_master_tab (env.append t) cfg.freezeValues t lastCol pt.rowCount pt.columnCount
         cfg.maxRows cfg.chunkSize cfg.mondayStr).2 = none →
       ∀ tabs : List String,
         (∀ ev ∈ (run_master_phase env cfg tabs).1, ev.metaTab ≠ some t) ∧
         (∀ m0 : String → Option String,
           applyMeta (run_master_phase env cfg tabs).1 m0 t = m0 t) ∧
         (t ∈ tabs → (cfg.onlyTab = "" ∨ t = cfg.onlyTab) →
           (run_master_phase env cfg tabs).2 ≠ none)) := by
  constructor
  · intro env fv tab lastCol rc cc mr cs ms ev h
    exact update_master_tab_no_meta h
  · intro env cfg t pt lastCol hp hm hfail tabs
    obtain ⟨h1, h3⟩ := run_master_phase_fail_protects env cfg t pt lastCol hp hm hfail tabs
    exact ⟨h1, fun m0 => applyMeta_of_no_write t _ m0 h1, h3⟩

/-- Witness for C1 at a concrete one-tab run whose first chunk read raises:
the metadata entry keeps its previous value B and the run errors. -/
theorem C1_meta_only_after_append_witness :
    applyMeta (run_master_phase demoMasterEnv demoMasterCfg ["Tab1"]).1
      (fun _ => some "B") "Tab1" = (fun _ => (some "B" : Option String)) "Tab1" ∧
    (run_master_phase demoMasterEnv demoMasterCfg ["Tab1"]).2 ≠ none :=
  ⟨(C1_meta_only_after_append.2 demoMasterEnv demoMasterCfg "Tab1" ⟨0, 5, 5⟩ "B"
      (by decide) (by decide) (by decide) ["Tab1"]).2.1 (fun _ => some "B"),
   (C1_meta_only_after_append.2 demoMasterEnv demoMasterCfg "Tab1" ⟨0, 5, 5⟩ "B"
      (by decide) (by decide) (by decide) ["Tab1"]).2.2 (by decide) (by decide)⟩

theorem range'_glue (s m n : Nat) :
    List.range' s m ++ List.range' (s + m) n = List.range' s (m + n) := by
  have h := List.range'_append s m n 1
  rw [one_mul] at h
  rw [h, Nat.add_comm n m]

theorem chunk_pairs_rows (chunkC dataEnd : Nat) (hc : 1 ≤ chunkC) :
    ∀ fuel row, dataEnd - row ≤ fuel →
      ((chunk_pairs chunkC dataEnd fuel row).flatMap fun p =>
        List.range' p.1 (p.2 + 1 - p.1)) = List.range' (row + 1) (dataEnd - row) := by
  intro fuel
  induction fuel with
  | zero =>
    intro row hf
    have h0 : dataEnd - row = 0 := Nat.le_zero.mp hf
    rw [chunk_pairs, h0]
    rfl
  | succ fuel ih =>
    intro row hf
    rw [chunk_pairs]
    split
    · rename_i hrow
      rw [List.flatMap_cons]
      rw [ih (min (row + chunkC) dataEnd) (by omega)]
      dsimp only
      have h1 : min (row + chunkC) dataEnd + 1 - (row + 1) =
          min (row + chunkC) dataEnd - row := by omega
      rw [h1]
      have h2 := range'_glue (row + 1) (min (row + chunkC) dataEnd - row)
        (dataEnd - min (row + chunkC) dataEnd)
      rw [show row + 1 + (min (row + chunkC) dataEnd - row) =
        min (row + chunkC) dataEnd + 1 by omega] at h2
      rw [h2]
      congr 1
      omega
    · rename_i hrow
      have h0 : dataEnd - row = 0 := by omega
      rw [h0]
      rfl

theorem chunk_pairs_head (chunkC dataEnd : Nat) :
    ∀ fuel row q, (chunk_pairs chunkC dataEnd fuel row).head? = some q → q.1 = row + 1 := by
  intro fuel
  cases fuel with
  | zero => intro row q h; simp [chunk_pairs] at h
  | succ fuel =>
    intro row q h
    rw [chunk_pairs] at h
    split at h
    · simp only [List.head?_cons, Option.some_inj] at h
      rw [← h]
    · simp at h

theorem chunk_pairs_chain (chunkC dataEnd : Nat) :
    ∀ fuel row, List.Chain' (fun p q : Nat × Nat => q.1 = p.2 + 1)
      (chunk_pairs chunkC dataEnd fuel row) := by
  intro fuel
  induction fuel with
  | zero => intro row; simp [chunk_pairs]
  | succ fuel ih =>
    intro row
    rw [chunk_pairs]
    split
    · rw [List.chain'_cons']
      refine ⟨?_, ih _⟩
      intro q hq
      exact chunk_pairs_head chunkC dataEnd fuel _ q hq
    · exact List.chain'_nil

theorem chunk_step_ok (fv : Bool) (tab prevL newL : String) (s e : Nat) :
    chunk_step okAppendEnv fv tab prevL newL s e =
      (Ev.readFormula tab prevL s e :: Ev.writeFormula tab newL s [["f"]] ::
        (if fv then [Ev.readValue tab prevL s e, Ev.writeValue tab prevL s [["v"]]] else []),
       true) := by
  cases fv <;> rfl

theorem master_chunk_iter_ok (fv : Bool) (tab prevL newL : String) (chunkC dataEnd : Nat) :
    ∀ fuel row,
      master_chunk_iter okAppendEnv fv tab prevL newL chunkC dataEnd fuel row =
        ((chunk_pairs chunkC dataEnd fuel row).flatMap fun p =>
          (chunk_step okAppendEnv fv tab prevL newL p.1 p.2).1, true) := by
  intro fuel
  induction fuel with
  | zero => intro row; rfl
  | succ fuel ih =>
    intro row
    rw [master_chunk_iter, chunk_pairs]
    split
    · rename_i hrow
      dsimp only
      rw [chunk_step_ok]
      dsimp only
      rw [if_pos rfl, ih, List.flatMap_cons, chunk_step_ok]
    · rfl

theorem block_read_ranges (fv : Bool) (tab prevL newL : String) :
    ∀ l : List (Nat × Nat),
      ((l.flatMap fun p => (chunk_step okAppendEnv fv tab prevL newL p.1 p.2).1).filterMap
        Ev.readRange) = l := by
  intro l
  induction l with
  | nil => rfl
  | cons p ps ih =>
    rw [List.flatMap_cons, List.filterMap_append, ih]
    have hp : ((chunk_step okAppendEnv fv tab prevL newL p.1 p.2).1.filterMap Ev.readRange) =
        [p] := by
      cases fv <;> rfl
    rw [hp]
    rfl

theorem freeze_iter_rows (sheetId colZ chunkC effRows : Nat) (hc : 1 ≤ chunkC) :
    ∀ fuel row, effRows - row ≤ fuel →
      (((freeze_chunk_iter okFreezeEnv sheetId colZ chunkC effRows fuel row).1.filterMap
        Ev.copyRange).flatMap fun p => List.range' (p.1 + 1) (p.2 - p.1)) =
        List.range' (row + 1) (effRows - row) := by
  intro fuel
  induction fuel with
  | zero =>
    intro row hf
    have h0 : effRows - row = 0 := Nat.le_zero.mp hf
    rw [freeze_chunk_iter, h0]
    rfl
  | succ fuel ih =>
    intro row hf
    rw [freeze_chunk_iter]
    split
    · rename_i hrow
      rw [if_pos (show okFreezeEnv.copyOk row = true from rfl)]
      rw [List.filterMap_cons]
      dsimp only [Ev.copyRange]
      rw [List.flatMap_cons]
      rw [ih (min (row + chunkC) effRows) (by omega)]
      dsimp only
      have h2 := range'_glue (row + 1) (min (row + chunkC) effRows - row)
        (effRows - min (row + chunkC) effRows)
      rw [show row + 1 + (min (row + chunkC) effRows - row) =
        min (row + chunkC) effRows + 1 by omega] at h2
      rw [h2]
      congr 1
      omega
    · rename_i hrow
      have h0 : effRows - row = 0 := by omega
      rw [h0]
      rfl

/-- C3: the chunked copy of update_master_tab processes the data region in
ascending chunks, each chunk's reads and writes forming one contiguous block
of the trace before the next chunk begins (the trace is the concatenation of
per-chunk blocks over the chunk schedule, whose consecutive ranges are
adjacent); concretely, for tab Prices with 50 rows, chunk size 20, declared 10
columns and metadata at column J, the append returns K and processes exactly
the row ranges 2-21, 22-41, 42-50, in that order, each chunk's reads and
writes before the next. -/
theorem C3_chunk_processing :
    (∀ (fv : Bool) (tab prevL newL : String) (chunkC dataEnd row : Nat),
      (master_chunk_loop okAppendEnv fv tab prevL newL chunkC dataEnd row).1 =
        ((chunk_pairs chunkC dataEnd (dataEnd - row) row).flatMap fun p =>
          (chunk_step okAppendEnv fv tab prevL newL p.1 p.2).1) ∧
      List.Chain' (fun p q : Nat × Nat => q.1 = p.2 + 1)
        (chunk_pairs chunkC dataEnd (dataEnd - row) row)) ∧
    update_master_tab okAppendEnv true "Prices" "J" 50 10 5000 20 "2026-10-06" =
      ([Ev.expandCols "Prices" 11, Ev.writeHeader "Prices" "K" "2026-10-06",
        Ev.readFormula "Prices" "J" 2 21, Ev.writeFormula "Prices" "K" 2 [["f"]],
        Ev.readValue "Prices" "J" 2 21, Ev.writeValue "Prices" "J" 2 [["v"]],
        Ev.readFormula "Prices" "J" 22 41, Ev.writeFormula "Prices" "K" 22 [["f"]],
        Ev.readValue "Prices" "J" 22 41, Ev.writeValue "Prices" "J" 22 [["v"]],
        Ev.readFormula "Prices" "J" 42 50, Ev.writeFormula "Prices" "K" 42 [["f"]],
        Ev.readValue "Prices" "J" 42 50, Ev.writeValue "Prices" "J" 42 [["v"]]],
       some "K") := by
  refine ⟨?_, by decide⟩
  intro fv tab prevL newL chunkC dataEnd row
  constructor
  · unfold master_chunk_loop
    rw [master_chunk_iter_ok]
  · exact chunk_pairs_chain chunkC dataEnd (dataEnd - row) row

/-- C9: for every effective row count of at least 2 and every configured chunk
size, including zero and negative values (clamped through max(1, size)), the
chunk loops of both engines terminate and the chunks they process partition
the data region: flattening the processed row ranges yields exactly the rows
2..effRows, in order, each exactly once. -/
theorem C9_chunk_partition (effRows : Nat) (chunkSize : Int) (_h2 : 2 ≤ effRows) :
    (((master_chunk_loop okAppendEnv true "T" "A" "B" (max 1 chunkSize).toNat
        effRows 1).1.filterMap Ev.readRange).flatMap fun p =>
          List.range' p.1 (p.2 + 1 - p.1)) = List.range' 2 (effRows - 1) ∧
    (((freeze_chunk_loop okFreezeEnv 0 0 (max 1 chunkSize).toNat effRows).1.filterMap
        Ev.copyRange).flatMap fun p => List.range' (p.1 + 1) (p.2 - p.1)) =
      List.range' 2 (effRows - 1) ∧
    1 ≤ (max 1 chunkSize).toNat := by
  have hc : 1 ≤ (max 1 chunkSize).toNat := by omega
  refine ⟨?_, ?_, hc⟩
  · unfold master_chunk_loop
    rw [master_chunk_iter_ok]
    show ((List.flatMap _ _).filterMap Ev.readRange).flatMap _ = _
    rw [block_read_ranges]
    have := chunk_pairs_rows (max 1 chunkSize).toNat effRows hc (effRows - 1) 1 le_rfl
    rw [this]
  · unfold freeze_chunk_loop
    have := freeze_iter_rows 0 0 (max 1 chunkSize).toNat effRows hc (effRows - 1) 1 le_rfl
    rw [this]

/-- Witness for C9 at 50 effective rows and the negative chunk size -5 (the
clamp turns it into 1). -/
theorem C9_chunk_partition_witness :
    (((master_chunk_loop okAppendEnv true "T" "A" "B" (max 1 (-5 : Int)).toNat
        50 1).1.filterMap Ev.readRange).flatMap fun p =>
          List.range' p.1 (p.2 + 1 - p.1)) = List.range' 2 49 ∧
    (((freeze_chunk_loop okFreezeEnv 0 0 (max 1 (-5 : Int)).toNat 50).1.filterMap
        Ev.copyRange).flatMap fun p => List.range' (p.1 + 1) (p.2 - p.1)) =
      List.range' 2 49 ∧
    1 ≤ (max 1 (-5 : Int)).toNat :=
  C9_chunk_partition 50 (-5) (by norm_num)

/-- C6: a non-skipped append that completes returns the label of index
previousColumnIndex + 1 (C yields D, Z yields AA), and when that index
exceeds the declared column count the very first remote call in the trace is
the structural update growing the column count to exactly the new index, hence
before any write to the new column. -/
theorem C6_append_new_column (env : AppendEnv) (fv : Bool) (tab lastCol : String)
    (rc cc : Nat) (mr cs : Int) (ms : String)
    (hrows : 1 < (if mr > 0 then min rc mr.toNat else rc)) :
    (∀ c, (update_master_tab env fv tab lastCol rc cc mr cs ms).2 = some c →
      c = col_to_a1 (a1_to_col lastCol + 1)) ∧
    ((cc : Int) < a1_to_col lastCol + 1 → env.expandOk = true →
      (update_master_tab env fv tab lastCol rc cc mr cs ms).1.head? =
        some (Ev.expandCols tab (a1_to_col lastCol + 1))) ∧
    col_to_a1 (a1_to_col "C" + 1) = "D" ∧ col_to_a1 (a1_to_col "Z" + 1) = "AA" := by
  refine ⟨?_, ?_, by decide, by decide⟩
  · intro c hc
    unfold update_master_tab at hc
    dsimp only at hc
    generalize heff : (if mr > 0 then min rc mr.toNat else rc : Nat) = eff at hc hrows
    repeat' split at hc
    all_goals
      first
      | omega
      | (simp at hc
         try exact hc.symm)
  · intro hcc hexp
    unfold update_master_tab
    dsimp only
    rw [if_neg (by omega)]
    rw [if_neg (by simp [hexp])]
    rw [if_pos hcc]
    split
    · rfl
    · rfl

/-- Witness for C6: appending after column C on a 5-row tab with only 3
declared columns completes with column D and begins with the expansion to 4. -/
theorem C6_append_new_column_witness :
    "D" = col_to_a1 (a1_to_col "C" + 1) ∧
    (update_master_tab okAppendEnv true "T" "C" 5 3 5000 2 "2026-10-06").1.head? =
      some (Ev.expandCols "T" (a1_to_col "C" + 1)) :=
  ⟨(C6_append_new_column okAppendEnv true "T" "C" 5 3 5000 2 "2026-10-06"
      (by decide)).1 "D" (by decide),
   (C6_append_new_column okAppendEnv true "T" "C" 5 3 5000 2 "2026-10-06"
      (by decide)).2.1 (by decide) (by decide)⟩

/-- Counterexample to C2 as stated: the stored label 3 parses to an invalid
previous-column state (a1_to_col gives 0, previous index -1); the freeze job
skips the tab with no calls, but the append operation does not skip: it writes
the date header and runs the chunked copy on a 5-row tab (with an empty
previous-column letter in its ranges), returning column A. -/
theorem C2_invalid_prev_counterexample :
    run_freeze_tab okFreezeEnv ⟨0, 5, 5⟩ "3" 5000 2 = ([], FreezeTabResult.skippedInvalid) ∧
    update_master_tab okAppendEnv true "T" "3" 5 5 5000 2 "2026-10-06" =
      ([Ev.writeHeader "T" "A" "2026-10-06",
        Ev.readFormula "T" "" 2 3, Ev.writeFormula "T" "A" 2 [["f"]],
        Ev.readValue "T" "" 2 3, Ev.writeValue "T" "" 2 [["v"]],
        Ev.readFormula "T" "" 4 5, Ev.writeFormula "T" "A" 4 [["f"]],
        Ev.readValue "T" "" 4 5, Ev.writeValue "T" "" 4 [["v"]]],
       some "A") :=
  ⟨by decide, by decide⟩

/-- C2, amended: only the freeze operation skips a tab whose stored label
parses to a previous-column index of 0 or less (with a diagnostic, performing
no remote calls); the append operation performs no such validation and
proceeds with the append computed from the parsed index, as the concrete run
on label 3 shows. -/
theorem C2_invalid_prev_column (env : FreezeEnv) (props : TabProps) (lastCol : String)
    (mr cs : Int) (hinv : a1_to_col lastCol - 1 < 1) :
    run_freeze_tab env props lastCol mr cs = ([], FreezeTabResult.skippedInvalid) ∧
    (update_master_tab okAppendEnv true "T" "3" 5 5 5000 2 "2026-10-06").1 ≠ [] := by
  constructor
  · unfold run_freeze_tab
    dsimp only
    rw [if_pos hinv]
  · decide

/-- Witness for C2 at the concrete label A (parsed previous-column index 0). -/
theorem C2_invalid_prev_column_witness :
    run_freeze_tab okFreezeEnv ⟨0, 5, 5⟩ "A" 5000 2 = ([], FreezeTabResult.skippedInvalid) ∧
    (update_master_tab okAppendEnv true "T" "3" 5 5 5000 2 "2026-10-06").1 ≠ [] :=
  C2_invalid_prev_column okFreezeEnv ⟨0, 5, 5⟩ "A" 5000 2 (by decide)

/-- Counterexample to C5 as stated: the freeze job's main catches every
exception with the same generic handler, so a persistent required-tab-missing
error is retried through all three attempts (two sleeps) and exits with the
generic code 1, not a distinct code and not immediately. -/
theorem C5_exit_codes_counterexample :
    freeze_main (fun _ => some RunErr.tabMissing) = ⟨1, 3, 2⟩ := by decide

/-- C5, amended: both jobs exit 0 on an immediately successful run; the update
job exits with the distinct code 2 at once, with no retry and no sleep, on a
required-tab-or-metadata error; the update job retries other failures with a
sleep between attempts and exits 1 after 3 attempts; the freeze job treats
every failure, including a missing required tab or metadata, as generic,
retrying and exiting 1 after 3 attempts. -/
theorem C5_exit_codes (runs1 runs2 runs3 runs4 : Nat → Option RunErr)
    (h1 : runs1 1 = none) (h2 : runs2 1 = some RunErr.tabMissing)
    (h3 : ∀ n, runs3 n = some RunErr.generic) (h4 : ∀ n, runs4 n ≠ none) :
    update_main runs1 = ⟨0, 1, 0⟩ ∧ freeze_main runs1 = ⟨0, 1, 0⟩ ∧
    update_main runs2 = ⟨2, 1, 0⟩ ∧
    update_main runs3 = ⟨1, 3, 2⟩ ∧ freeze_main runs4 = ⟨1, 3, 2⟩ := by
  refine ⟨?_, ?_, ?_, ?_, ?_⟩
  · show update_main_iter runs1 (2 + 1) 1 0 = _
    rw [update_main_iter, h1]
  · show freeze_main_iter runs1 (2 + 1) 1 0 = _
    rw [freeze_main_iter, h1]
  · show update_main_iter runs2 (2 + 1) 1 0 = _
    rw [update_main_iter, h2]
  · show update_main_iter runs3 (2 + 1) 1 0 = _
    rw [update_main_iter, h3 1]
    dsimp only
    rw [if_pos (by decide : (1 : Nat) < RETRY_COUNT)]
    show update_main_iter runs3 (1 + 1) 2 1 = _
    rw [update_main_iter, h3 2]
    dsimp only
    rw [if_pos (by decide : (2 : Nat) < RETRY_COUNT)]
    show update_main_iter runs3 (0 + 1) 3 2 = _
    rw [update_main_iter, h3 3]
    dsimp only
    rw [if_neg (by decide : ¬ (3 : Nat) < RETRY_COUNT)]
  · show freeze_main_iter runs4 (2 + 1) 1 0 = _
    cases hr1 : runs4 1 with
    | none => exact absurd hr1 (h4 1)
    | some e1 =>
      rw [freeze_main_iter, hr1]
      dsimp only
      rw [if_pos (by decide : (1 : Nat) < RETRY_COUNT)]
      cases hr2 : runs4 2 with
      | none => exact absurd hr2 (h4 2)
      | some e2 =>
        show freeze_main_iter runs4 (1 + 1) 2 1 = _
        rw [freeze_main_iter, hr2]
        dsimp only
        rw [if_pos (by decide : (2 : Nat) < RETRY_COUNT)]
        cases hr3 : runs4 3 with
        | none => exact absurd hr3 (h4 3)
        | some e3 =>
          show freeze_main_iter runs4 (0 + 1) 3 2 = _
          rw [freeze_main_iter, hr3]
          dsimp only
          rw [if_neg (by decide : ¬ (3 : Nat) < RETRY_COUNT)]

/-- Witness for C5 at concrete outcome schedules. -/
theorem C5_exit_codes_witness :
    update_main (fun _ => none) = ⟨0, 1, 0⟩ ∧ freeze_main (fun _ => none) = ⟨0, 1, 0⟩ ∧
    update_main (fun _ => some RunErr.tabMissing) = ⟨2, 1, 0⟩ ∧
    update_main (fun _ => some RunErr.generic) = ⟨1, 3, 2⟩ ∧
    freeze_main (fun _ => some RunErr.tabMissing) = ⟨1, 3, 2⟩ :=
  C5_exit_codes (fun _ => none) (fun _ => some RunErr.tabMissing)
    (fun _ => some RunErr.generic) (fun _ => some RunErr.tabMissing)
    rfl rfl (fun _ => rfl) (fun _ h => Option.noConfusion h)

/-- Counterexample to C8 as stated: an HttpError raised while reading the
selected source dataset's values is swallowed into a skip-and-continue of that
mapping: the extract phase completes without error, a third downgraded case
beyond the two the claim allows. -/
theorem C8_propagation_counterexample :
    select_latest_file demoFiles demoMapping.pfx demoMapping.excl =
      some ⟨"f1", "data_241201", none, none⟩ ∧
    run_extract_phase httpFailExtractEnv demoFiles ["Tab1"] [demoMapping] = ([], none) :=
  ⟨by decide, by decide⟩

/-- C8, amended: the downgraded-to-skip cases are three, not two: a
source-selection miss, an HttpError while reading the selected source
dataset's values (both skip the mapping and continue), and the freeze job's
invalid previous-column state (skips the tab); every other modelled
remote-call failure propagates: a non-HttpError read failure, a clear failure,
and a target-write failure each abort the run. -/
theorem C8_downgraded_failures (env : ExtractEnv) (files : List FileInfo)
    (tabs : List String) (m : Mapping) (rest : List Mapping) (f : FileInfo)
    (hmem : m.target_tab ∈ tabs) :
    (select_latest_file files m.pfx m.excl = none →
      run_extract_phase env files tabs (m :: rest) = run_extract_phase env files tabs rest) ∧
    (select_latest_file files m.pfx m.excl = some f →
      env.readSource f.id = Except.error ReadErr.httpError →
      run_extract_phase env files tabs (m :: rest) = run_extract_phase env files tabs rest) ∧
    (select_latest_file files m.pfx m.excl = some f →
      env.readSource f.id = Except.error ReadErr.otherError →
      run_extract_phase env files tabs (m :: rest) = ([], some RunErr.generic)) ∧
    (∀ values, select_latest_file files m.pfx m.excl = some f →
      env.readSource f.id = Except.ok values → env.clearOk m.target_tab = false →
      run_extract_phase env files tabs (m :: rest) = ([], some RunErr.generic)) ∧
    (∀ values, select_latest_file files m.pfx m.excl = some f →
      env.readSource f.id = Except.ok values → values.isEmpty = false →
      env.clearOk m.target_tab = true → env.writeOk m.target_tab = false →
      run_extract_phase env files tabs (m :: rest) =
        ([Ev.clearTarget m.target_tab], some RunErr.generic)) ∧
    (∀ (fenv : FreezeEnv) (props : TabProps) (lastCol : String) (mr cs : Int),
      a1_to_col lastCol - 1 < 1 →
      run_freeze_tab fenv props lastCol mr cs = ([], FreezeTabResult.skippedInvalid)) := by
  refine ⟨?_, ?_, ?_, ?_, ?_, ?_⟩
  · intro hsel
    rw [run_extract_phase, if_pos hmem, hsel]
  · intro hsel hread
    rw [run_extract_phase, if_pos hmem, hsel]
    dsimp only
    rw [hread]
  · intro hsel hread
    rw [run_extract_phase, if_pos hmem, hsel]
    dsimp only
    rw [hread]
  · intro values hsel hread hclear
    rw [run_extract_phase, if_pos hmem, hsel]
    dsimp only
    rw [hread]
    dsimp only
    rw [hclear]
    simp
  · intro values hsel hread hne hclear hwrite
    rw [run_extract_phase, if_pos hmem, hsel]
    dsimp only
    rw [hread]
    dsimp only
    rw [hclear]
    simp only [if_pos rfl]
    unfold write_target_values
    rw [hne, hwrite]
    simp
  · intro fenv props lastCol mr cs hinv
    unfold run_freeze_tab
    dsimp only
    rw [if_pos hinv]

/-- Witness for C8: the HttpError-read skip at a concrete mapping. -/
theorem C8_downgraded_failures_witness :
    run_extract_phase httpFailExtractEnv demoFiles ["Tab1"] [demoMapping] =
      run_extract_phase httpFailExtractEnv demoFiles ["Tab1"] [] :=
  (C8_downgraded_failures httpFailExtractEnv demoFiles ["Tab1"] demoMapping []
    ⟨"f1", "data_241201", none, none⟩ (by decide)).2.1 (by decide) rfl

/-- C10: the target-write step is a no-op (succeeds issuing no call) exactly
when the value list is empty; with a selected source whose read returns zero
rows, the staging tab's range is still cleared, no write is issued, and
replaying the run leaves the staging range empty. -/
theorem C10_empty_source (env : ExtractEnv) (files : List FileInfo) (tabs : List String)
    (m : Mapping) (f : FileInfo)
    (hmem : m.target_tab ∈ tabs)
    (hsel : select_latest_file files m.pfx m.excl = some f)
    (hread : env.readSource f.id = Except.ok [])
    (hclear : env.clearOk m.target_tab = true) :
    (∀ (tab : String) (values : List (List String)),
      write_target_values env tab values = some [] ↔ values = []) ∧
    run_extract_phase env files tabs [m] = ([Ev.clearTarget m.target_tab], none) ∧
    ∀ σ0, applyStaging (run_extract_phase env files tabs [m]).1 σ0 m.target_tab = [] := by
  have hphase : run_extract_phase env files tabs [m] = ([Ev.clearTarget m.target_tab], none) := by
    rw [run_extract_phase, if_pos hmem, hsel]
    dsimp only
    rw [hread]
    dsimp only
    rw [hclear]
    simp only [if_pos rfl]
    rfl
  refine ⟨?_, hphase, ?_⟩
  · intro tab values
    unfold write_target_values
    constructor
    · intro h
      by_cases he : values.isEmpty
      · exact List.isEmpty_iff.mp he
      · rw [if_neg he] at h
        split at h
        · exact absurd h (by simp)
        · exact absurd h (by simp)
    · intro h
      subst h
      rfl
  · intro σ0
    rw [hphase]
    simp [applyStaging]

/-- Witness for C10 at a concrete mapping whose source read returns no rows. -/
theorem C10_empty_source_witness :
    run_extract_phase emptyReadExtractEnv demoFiles ["Tab1"] [demoMapping] =
      ([Ev.clearTarget demoMapping.target_tab], none) ∧
    applyStaging (run_extract_phase emptyReadExtractEnv demoFiles ["Tab1"] [demoMapping]).1
      (fun _ => [["old"]]) demoMapping.target_tab = [] :=
  ⟨(C10_empty_source emptyReadExtractEnv demoFiles ["Tab1"] demoMapping
      ⟨"f1", "data_241201", none, none⟩ (by decide) (by decide) rfl rfl).2.1,
   (C10_empty_source emptyReadExtractEnv demoFiles ["Tab1"] demoMapping
      ⟨"f1", "data_241201", none, none⟩ (by decide) (by decide) rfl rfl).2.2
      (fun _ => [["old"]])⟩

end CompetitorSync
